import Mathlib

/-!
# Verification of the TikTok search tool's discovery-and-accumulation core

Shallow embedding of the repository's core data flow:

* `ExcelManager` (src/src/managers/excel_manager.py): duplicate filtering and
  append-only persistence (`filter_duplicate_videos`, `_extract_existing_links`,
  `create_and_save`).
* `ChannelExtractor._extract_videos_by_scrolling`
  (src/src/channel_search/channel_extractor.py): the scroll/paginate loop with
  its exit conditions (max reached, consecutive-no-progress, end of channel)
  plus the hard scroll ceiling.
* `extract_video_info` and `find_tiktok_links` (src/src/utils/utils.py): the
  identity resolver and the candidate extractor.
* The try/except wrappers in `TikTokSearcher.search_tiktok`
  (src/src/core/tiktok_searcher.py) and
  `ChannelExtractor.extract_channel_videos`.

A worksheet is modelled as the list of data rows below the header; a row/video
dictionary is modelled by the `Video` structure.  Python sets of strings are
modelled as duplicate-free lists with membership-guarded insertion, which
preserves exactly the membership semantics the code relies on.  Python's
`str.strip()` is modelled character-by-character by `pyStrip`.
-/

/-- Python's `str.strip()`: drop leading and trailing whitespace. -/
def pyStrip (s : String) : String :=
  String.mk (((s.toList.dropWhile Char.isWhitespace).reverse.dropWhile
    Char.isWhitespace).reverse)

/-- One video record: the dictionary built by `TikTokSearcher.search_tiktok`
and written as one worksheet row by `ExcelManager.add_data`.  The `addedDate`
field models the `added_date` / discovery timestamp cell. -/
structure Video where
  url : String
  username : String := ""
  videoId : String := ""
  title : String := ""
  searchQuery : String := ""
  addedDate : String := ""
deriving DecidableEq, Repr

/-- One step of `ExcelManager._extract_existing_links`: the body of the row
loop, which strips the URL cell and adds it to the `existing_links` set when
it is non-empty (set insertion modelled as append-if-absent). -/
def exAdd (s : List String) (r : Video) : List String :=
  let c := pyStrip r.url
  if c ≠ "" ∧ c ∉ s then s ++ [c] else s

/-- `ExcelManager._extract_existing_links`: collect the stripped, non-empty
URL cells of all existing rows into the `existing_links` set. -/
def extractExistingLinks (rows : List Video) : List String :=
  rows.foldl exAdd []

/-- The loop body of `ExcelManager.filter_duplicate_videos`: accumulator is
`((new_videos, duplicate_count), existing_links)`.  A video whose stripped URL
is non-empty and not yet in `existing_links` is kept and its URL recorded;
every other video is counted as a duplicate. -/
def dupStep (acc : (List Video × Nat) × List String) (v : Video) :
    (List Video × Nat) × List String :=
  let u := pyStrip v.url
  if u ≠ "" ∧ u ∉ acc.2 then ((acc.1.1 ++ [v], acc.1.2), acc.2 ++ [u])
  else ((acc.1.1, acc.1.2 + 1), acc.2)

/-- `ExcelManager.filter_duplicate_videos`: filter a batch against (and while
updating) the `existing_links` set.  Returns `((new_videos, duplicate_count),
updated existing_links)`. -/
def filter_duplicate_videos (existing_links : List String) (videos : List Video) :
    (List Video × Nat) × List String :=
  videos.foldl dupStep (([], 0), existing_links)

/-- Result of `ExcelManager.create_and_save`: the returned boolean, the store
(worksheet data rows) after the call — `none` models "the file does not
exist" — and the written/duplicate counts the method reports
(`len(new_videos)` and `duplicate_count`). -/
structure SaveResult where
  success : Bool
  store : Option (List Video)
  written : Nat
  duplicates : Nat
deriving DecidableEq, Repr

/-- `ExcelManager.create_and_save`: refuse an empty batch; otherwise load the
existing rows (an absent file contributes no rows and no existing links),
filter duplicates, and append the surviving videos as new rows.  When nothing
survives the filter no write happens and the file is left as it was. -/
def create_and_save (videos : List Video) (store : Option (List Video)) : SaveResult :=
  if videos = [] then ⟨false, store, 0, 0⟩
  else
    let rows := store.getD []
    let existing := extractExistingLinks rows
    let fd := filter_duplicate_videos existing videos
    let newV := fd.1.1
    let dup := fd.1.2
    if newV = [] then ⟨true, store, 0, dup⟩
    else ⟨true, some (rows ++ newV), newV.length, dup⟩

/-- Specification-side merge, written from the spec's §4.4 merge contract and
claim C1's wording: walk the session items in discovery order, skip (and count
as a duplicate) every item whose identity — its stripped URL — is already
known at merge time, append the rest and record their identities as known.
Returns `(written items, duplicate_count)`.  Used to state refinement of
`filter_duplicate_videos` / `create_and_save`. -/
def mergeSpec (known : List String) : List Video → List Video × Nat
  | [] => ([], 0)
  | v :: vs =>
    if pyStrip v.url ∈ known then
      let r := mergeSpec known vs
      (r.1, r.2 + 1)
    else
      let r := mergeSpec (known ++ [pyStrip v.url]) vs
      (v :: r.1, r.2)

example :
    create_and_save [⟨"B", "", "", "", "", ""⟩] (some [⟨"A", "", "", "", "", ""⟩])
      = ⟨true, some [⟨"A", "", "", "", "", ""⟩, ⟨"B", "", "", "", "", ""⟩], 1, 0⟩ := by
  decide

example :
    (mergeSpec ["A"] [⟨"A", "", "", "", "", ""⟩, ⟨"B", "", "", "", "", ""⟩]).2 = 1 := by
  decide

/-! ## The scrolling / pagination loop (`ChannelExtractor`) -/

/-- `ChannelExtractor._filter_new_videos`: keep the current-page videos whose
URL is not among the URLs already collected this session.  Note it consults
only the session's own collection, not the persisted store. -/
def filter_new_videos (current : List Video) (existing : List Video) : List Video :=
  let existingUrls := existing.map (fun v => v.url)
  current.filter (fun v => decide (v.url ∉ existingUrls))

/-- The exit reasons of `ChannelExtractor._extract_videos_by_scrolling`,
tagged by the four distinct messages the loop prints when it stops. -/
inductive ScrollExit
  | maxReached
  | noNewStall
  | endOfChannel
  | scrollLimit
deriving DecidableEq, Repr

/-- The spec's Pagination Controller terminal states (§4.3). -/
inductive PagState
  | SATISFIED
  | STALLED
  | EXHAUSTED
deriving DecidableEq, Repr

/-- Map each concrete loop exit to the spec's terminal state: stopping for the
max target is `SATISFIED`, both no-progress exits are `STALLED`, and running
into the hard scroll ceiling is `EXHAUSTED`. -/
def specFinalState : ScrollExit → PagState
  | ScrollExit.maxReached => PagState.SATISFIED
  | ScrollExit.noNewStall => PagState.STALLED
  | ScrollExit.endOfChannel => PagState.STALLED
  | ScrollExit.scrollLimit => PagState.EXHAUSTED

/-- Mutable locals of `_extract_videos_by_scrolling`: `all_videos`,
`no_new_videos_count`, `last_video_count`, and the number of completed loop
iterations (`scroll_count`, which also indexes the next snapshot). -/
structure ScrollState where
  all : List Video
  noNew : Nat
  last : Nat
  iters : Nat
deriving DecidableEq, Repr

/-- The Python truthiness test `if max_videos and len(all_videos) >= max_videos`:
`none` models `max_videos=None`, and `some 0` is falsy exactly as in Python. -/
def maxReachedCheck (maxVideos : Option Nat) (n : Nat) : Bool :=
  match maxVideos with
  | some m => decide (0 < m) && decide (m ≤ n)
  | none => false

/-- One iteration of the `while` body of `_extract_videos_by_scrolling`,
given the videos extracted from the current snapshot: filter against the
session collection, extend it, then evaluate the three break conditions in
source order (max reached → truncate; three consecutive empty iterations;
collection size unchanged since the previous iteration).  Returns the updated
locals and `some exit` when the body breaks. -/
def scrollStep (maxVideos : Option Nat) (current : List Video) (s : ScrollState) :
    ScrollState × Option ScrollExit :=
  let newV := filter_new_videos current s.all
  let all2 := s.all ++ newV
  if maxReachedCheck maxVideos all2.length then
    (⟨all2.take (maxVideos.getD 0), s.noNew, s.last, s.iters + 1⟩,
      some ScrollExit.maxReached)
  else
    let noNew2 := if newV.length = 0 then s.noNew + 1 else 0
    if newV.length = 0 ∧ 3 ≤ noNew2 then
      (⟨all2, noNew2, s.last, s.iters + 1⟩, some ScrollExit.noNewStall)
    else if all2.length = s.last then
      (⟨all2, noNew2, s.last, s.iters + 1⟩, some ScrollExit.endOfChannel)
    else
      (⟨all2, noNew2, all2.length, s.iters + 1⟩, none)

/-- The `while scroll_count < self.max_scrolls` loop, driven by the content
source `snap` (iteration `i` extracts `snap i` from the page).  Exhausting the
scroll budget without a break exits with `scrollLimit`. -/
def scrollGo (snap : Nat → List Video) (maxVideos : Option Nat) :
    Nat → ScrollState → ScrollState × ScrollExit
  | 0, s => (s, ScrollExit.scrollLimit)
  | fuel + 1, s =>
    match scrollStep maxVideos (snap s.iters) s with
    | (s2, some e) => (s2, e)
    | (s2, none) => scrollGo snap maxVideos fuel s2

/-- `ChannelExtractor._extract_videos_by_scrolling`: run the scroll loop from
empty session state with the configured scroll budget (`max_scrolls = 50` in
the source). -/
def extract_videos_by_scrolling (snap : Nat → List Video) (maxVideos : Option Nat)
    (maxScrolls : Nat) : ScrollState × ScrollExit :=
  scrollGo snap maxVideos maxScrolls ⟨[], 0, 0, 0⟩

/-! Concrete items for the C4 scenario and the counterexamples. -/

/-- Shorthand for a video that only carries a URL, as the scroll loop sees it. -/
def mkV (u : String) : Video := ⟨u, "", "", "", "", ""⟩

def vA : Video := mkV ("A")
def vB : Video := mkV ("B")
def vC : Video := mkV ("C")
def vD : Video := mkV ("D")
def vE : Video := mkV ("E")
def vF : Video := mkV ("F")

/-- The C4 scenario's content source: snapshots `[A,B]`, `[A,B,C,D]`, then
`[A,B,C,D,E,F]` for every later reveal. -/
def snapC4 : Nat → List Video := fun i =>
  if i = 0 then [vA, vB]
  else if i = 1 then [vA, vB, vC, vD]
  else [vA, vB, vC, vD, vE, vF]

/-- A content source that forever shows the single already-persisted item `A`. -/
def snapConstA : Nat → List Video := fun _ => [vA]

example :
    extract_videos_by_scrolling snapC4 (some 5) 50
      = (⟨[vA, vB, vC, vD, vE], 0, 4, 3⟩, ScrollExit.maxReached) := by
  decide

example :
    extract_videos_by_scrolling snapConstA (some 1) 50
      = (⟨[vA], 0, 0, 1⟩, ScrollExit.maxReached) := by
  decide

example :
    extract_videos_by_scrolling snapConstA none 50
      = (⟨[vA], 1, 1, 2⟩, ScrollExit.endOfChannel) := by
  decide

example :
    extract_videos_by_scrolling (fun _ => []) none 50
      = (⟨[], 1, 0, 1⟩, ScrollExit.endOfChannel) := by
  decide

/-! ## Candidate extractor (`find_tiktok_links`, src/src/utils/utils.py) -/

/-- `TIKTOK_URL_PATTERNS` from src/src/core/config.py: the ordered list of
regular-expression rules the extractor applies. -/
def TIKTOK_URL_PATTERNS : List String :=
  ["https://www\\.tiktok\\.com/@[\\w.-]+/video/\\d+",
   "https://vm\\.tiktok\\.com/[A-Za-z0-9]+/",
   "https://www\\.tiktok\\.com/t/[A-Za-z0-9]+/",
   "\"url\":\"(https://www\\.tiktok\\.com/@[\\w.-]+/video/\\d+)\"",
   "\"shareUrl\":\"(https://www\\.tiktok\\.com/@[\\w.-]+/video/\\d+)\"",
   "href=\"(https://www\\.tiktok\\.com/@[\\w.-]+/video/\\d+)\""]

/-- The `found_links` accumulation loop of `find_tiktok_links`: concatenate,
in rule order, the matches each pattern produces on the page source.  The
regex engine `re.findall` is taken as a parameter `findall`, so every theorem
below holds for any matcher. -/
def foundLinks (findall : String → String → List String) (page : String) :
    List String :=
  TIKTOK_URL_PATTERNS.foldl (fun acc p => acc ++ findall p page) []

/-- The dedup loop of `find_tiktok_links`: accumulator is
`(unique_links, seen)`; a link is appended to both exactly when it has not
been seen yet. -/
def linkDedupStep (acc : List String × List String) (link : String) :
    List String × List String :=
  if link ∈ acc.2 then acc else (acc.1 ++ [link], acc.2 ++ [link])

/-- `find_tiktok_links`: collect all pattern matches in rule order, then
remove duplicates while preserving first-occurrence order. -/
def find_tiktok_links (findall : String → String → List String) (page : String) :
    List String :=
  ((foundLinks findall page).foldl linkDedupStep ([], [])).1

/-- Recursive characterization of first-occurrence deduplication, used to
reason about the fold in `find_tiktok_links`. -/
def dedupAux (seen : List String) : List String → List String
  | [] => []
  | x :: xs =>
    if x ∈ seen then dedupAux seen xs
    else x :: dedupAux (seen ++ [x]) xs

/-! ## Identity resolver (`extract_video_info`, src/src/utils/utils.py) -/

/-- Python's (ASCII) `\w` character class: letters, digits, underscore. -/
def isWordChar (c : Char) : Bool :=
  c.isAlphanum || c = '_'

/-- The `[\w.-]` character class of the canonical-URL pattern. -/
def isUserChar (c : Char) : Bool :=
  isWordChar c || c = '.' || c = '-'

/-- If `pre` is a prefix of `s`, return the remainder of `s`, else `none`. -/
def prefixDrop : List Char → List Char → Option (List Char)
  | [], s => some s
  | _ :: _, [] => none
  | p :: ps, c :: cs => if c = p then prefixDrop ps cs else none

/-- Try to match `https://www\.tiktok\.com/@([\w.-]+)/video/(\d+)` at the head
of `s`, returning the two capture groups.  Since `/` is not in `[\w.-]`, the
greedy run for group 1 is exactly the maximal `isUserChar` run, so no
backtracking is needed. -/
def matchCanonicalAt (s : List Char) : Option (String × String) :=
  match prefixDrop ("https://www.tiktok.com/@".toList) s with
  | none => none
  | some rest =>
    let user := rest.takeWhile isUserChar
    let rest2 := rest.dropWhile isUserChar
    if user.isEmpty then none
    else
      match prefixDrop ("/video/".toList) rest2 with
      | none => none
      | some rest3 =>
        let digits := rest3.takeWhile Char.isDigit
        if digits.isEmpty then none
        else some (String.mk user, String.mk digits)

/-- `re.search` for the canonical pattern: try every start position from the
left and return the first (leftmost) match. -/
def searchCanonical : List Char → Option (String × String)
  | [] => none
  | c :: cs =>
    match matchCanonicalAt (c :: cs) with
    | some r => some r
    | none => searchCanonical cs

/-- Python's `needle in haystack` substring test over character lists. -/
def listContainsSub (needle : List Char) : List Char → Bool
  | [] => needle.isEmpty
  | c :: cs => (prefixDrop needle (c :: cs)).isSome || listContainsSub needle cs

/-- Python's `needle in haystack` substring test on strings. -/
def strContainsSub (haystack needle : String) : Bool :=
  listContainsSub needle.toList haystack.toList

/-- Python's `url.split('/')` over character lists (keeps empty segments). -/
def splitSlashAux (cur : List Char) : List Char → List (List Char)
  | [] => [cur.reverse]
  | c :: cs =>
    if c = '/' then cur.reverse :: splitSlashAux [] cs
    else splitSlashAux (c :: cur) cs

/-- `url.split('/')[-1]` — the last (possibly empty) slash-separated segment;
the source's `.replace('/', '')` is the identity on a single segment. -/
def lastSlashSegment (url : String) : String :=
  String.mk ((splitSlashAux [] url.toList).getLastD [])

/-- `extract_video_info` (src/src/utils/utils.py): resolve a candidate URL to
`(username, video_id)`.  Rule 1: the canonical `@user/video/id` pattern.
Rule 2: short URLs (`vm.tiktok.com` or `tiktok.com/t/` substrings) use the
last path segment as id and the sentinel username `short_url`.  Otherwise
both fields keep their initial sentinel value `"unknown"`. -/
def extract_video_info (url : String) : String × String :=
  match searchCanonical url.toList with
  | some r => r
  | none =>
    if strContainsSub url ("vm.tiktok.com") || strContainsSub url ("tiktok.com/t/") then
      ("short_url", lastSlashSegment url)
    else
      ("unknown", "unknown")

example :
    extract_video_info ("https://www.tiktok.com/@alice/video/42") = ("alice", "42") := by
  decide

example :
    extract_video_info ("https://vm.tiktok.com/abc123") = ("short_url", "abc123") := by
  decide

example :
    extract_video_info ("https://example.com/xyz") = ("unknown", "unknown") := by
  decide

/-! ## Session-level error handling -/

/-- Outcome of the body of a discovery call: either it completes with a list
of videos, or it raises mid-session.  In the raising case we record the
videos the body had accumulated before the failure, so that theorems can talk
about what the except-handler does with them (the Python exception object
itself carries only `msg`). -/
inductive SessionOutcome
  | ok (videos : List Video)
  | raised (accumulatedSoFar : List Video) (msg : String)
deriving DecidableEq, Repr

/-- The try/except of `TikTokSearcher.search_tiktok`
(src/src/core/tiktok_searcher.py lines 103-105) and of
`ChannelExtractor.extract_channel_videos`
(src/src/channel_search/channel_extractor.py lines 81-83): a raised exception
is caught, an error line is printed, and the function returns `[]` — it does
not re-raise, and the locals accumulated by the failed body are not
returned. -/
def search_tiktok (outcome : SessionOutcome) : List Video :=
  match outcome with
  | SessionOutcome.ok vs => vs
  | SessionOutcome.raised _ _ => []

/-! ## Lemmas about the accumulation store -/

theorem foldl_dupStep_eq (videos : List Video) :
    ∀ (nv : List Video) (d : Nat) (ex : List String),
      (∀ v ∈ videos, pyStrip v.url ≠ "") →
      videos.foldl dupStep ((nv, d), ex)
        = ((nv ++ (mergeSpec ex videos).1, d + (mergeSpec ex videos).2),
           ex ++ (mergeSpec ex videos).1.map (fun v => pyStrip v.url)) := by
  induction videos with
  | nil => intro nv d ex _; simp [mergeSpec]
  | cons v vs ih =>
    intro nv d ex h
    have hu : pyStrip v.url ≠ "" := h v (List.mem_cons_self v vs)
    have hvs : ∀ w ∈ vs, pyStrip w.url ≠ "" := fun w hw =>
      h w (List.mem_cons_of_mem v hw)
    by_cases hm : pyStrip v.url ∈ ex
    · have hstep : dupStep ((nv, d), ex) v = ((nv, d + 1), ex) := by
        simp [dupStep, hm]
      rw [List.foldl_cons, hstep, ih nv (d + 1) ex hvs]
      simp [mergeSpec, hm, Prod.mk.injEq, Nat.add_comm, Nat.add_left_comm,
        Nat.add_assoc]
    · have hstep : dupStep ((nv, d), ex) v
          = ((nv ++ [v], d), ex ++ [pyStrip v.url]) := by
        simp [dupStep, hm, hu]
      rw [List.foldl_cons, hstep, ih (nv ++ [v]) d (ex ++ [pyStrip v.url]) hvs]
      simp [mergeSpec, hm, Prod.mk.injEq, List.append_assoc]

theorem filter_duplicate_videos_eq (ex : List String) (videos : List Video)
    (h : ∀ v ∈ videos, pyStrip v.url ≠ "") :
    filter_duplicate_videos ex videos
      = (((mergeSpec ex videos).1, (mergeSpec ex videos).2),
         ex ++ (mergeSpec ex videos).1.map (fun v => pyStrip v.url)) := by
  have := foldl_dupStep_eq videos [] 0 ex h
  simpa [filter_duplicate_videos] using this

theorem mergeSpec_length (known : List String) (vs : List Video) :
    (mergeSpec known vs).1.length + (mergeSpec known vs).2 = vs.length := by
  induction vs generalizing known with
  | nil => simp [mergeSpec]
  | cons v vs ih =>
    by_cases hm : pyStrip v.url ∈ known
    · have := ih known
      simp only [mergeSpec, if_pos hm, List.length_cons]
      omega
    · have := ih (known ++ [pyStrip v.url])
      simp only [mergeSpec, if_neg hm, List.length_cons]
      omega

theorem mergeSpec_of_all_known (known : List String) (vs : List Video)
    (h : ∀ v ∈ vs, pyStrip v.url ∈ known) :
    mergeSpec known vs = ([], vs.length) := by
  induction vs with
  | nil => simp [mergeSpec]
  | cons v vs ih =>
    have hv : pyStrip v.url ∈ known := h v (List.mem_cons_self v vs)
    have hvs : ∀ w ∈ vs, pyStrip w.url ∈ known := fun w hw =>
      h w (List.mem_cons_of_mem v hw)
    simp [mergeSpec, hv, ih hvs]

theorem mergeSpec_mem_or (known : List String) (vs : List Video) :
    ∀ v ∈ vs, pyStrip v.url ∈ known ∨
      pyStrip v.url ∈ (mergeSpec known vs).1.map (fun w => pyStrip w.url) := by
  induction vs generalizing known with
  | nil => simp
  | cons v vs ih =>
    intro w hw
    by_cases hm : pyStrip v.url ∈ known
    · simp only [mergeSpec, if_pos hm]
      rcases List.mem_cons.mp hw with rfl | hw'
      · exact Or.inl hm
      · exact ih known w hw'
    · simp only [mergeSpec, if_neg hm, List.map_cons]
      rcases List.mem_cons.mp hw with rfl | hw'
      · exact Or.inr (List.mem_cons_self _ _)
      · rcases ih (known ++ [pyStrip v.url]) w hw' with hk | hr
        · rcases List.mem_append.mp hk with h1 | h2
          · exact Or.inl h1
          · simp only [List.mem_singleton] at h2
            exact Or.inr (by simp [h2])
        · exact Or.inr (List.mem_cons_of_mem _ hr)

theorem mem_foldl_exAdd (rows : List Video) :
    ∀ (acc : List String) (t : String),
      t ∈ rows.foldl exAdd acc
        ↔ t ∈ acc ∨ (t ≠ "" ∧ ∃ r ∈ rows, pyStrip r.url = t) := by
  induction rows with
  | nil => simp
  | cons r rows ih =>
    intro acc t
    rw [List.foldl_cons, ih]
    have hstep : t ∈ exAdd acc r ↔ t ∈ acc ∨ (t ≠ "" ∧ pyStrip r.url = t) := by
      unfold exAdd
      by_cases hc : pyStrip r.url ≠ "" ∧ pyStrip r.url ∉ acc
      · rw [if_pos hc]
        simp only [List.mem_append, List.mem_singleton]
        constructor
        · rintro (h1 | h2)
          · exact Or.inl h1
          · exact Or.inr ⟨h2 ▸ hc.1, h2.symm⟩
        · rintro (h1 | ⟨_, h2⟩)
          · exact Or.inl h1
          · exact Or.inr h2.symm
      · rw [if_neg hc]
        constructor
        · exact Or.inl
        · rintro (h1 | ⟨hne, heq⟩)
          · exact h1
          · rcases not_and_or.mp hc with hbad | hin
            · exact absurd (heq ▸ hne) (by simpa using hbad)
            · exact heq ▸ not_not.mp hin
    rw [hstep]
    simp only [List.mem_cons]
    constructor
    · rintro ((h1 | ⟨hne, heq⟩) | h2)
      · exact Or.inl h1
      · exact Or.inr ⟨hne, r, Or.inl rfl, heq⟩
      · rcases h2 with ⟨hne, w, hw, heq⟩
        exact Or.inr ⟨hne, w, Or.inr hw, heq⟩
    · rintro (h1 | ⟨hne, w, (rfl | hw), heq⟩)
      · exact Or.inl (Or.inl h1)
      · exact Or.inl (Or.inr ⟨hne, heq⟩)
      · exact Or.inr ⟨hne, w, hw, heq⟩

theorem mem_extractExistingLinks (rows : List Video) (t : String) :
    t ∈ extractExistingLinks rows ↔ t ≠ "" ∧ ∃ r ∈ rows, pyStrip r.url = t := by
  unfold extractExistingLinks
  rw [mem_foldl_exAdd]
  simp

theorem mergeSpec_not_known (known : List String) (vs : List Video) :
    ∀ v ∈ (mergeSpec known vs).1, pyStrip v.url ∉ known := by
  induction vs generalizing known with
  | nil => simp [mergeSpec]
  | cons v vs ih =>
    intro w hw
    by_cases hm : pyStrip v.url ∈ known
    · simp only [mergeSpec, if_pos hm] at hw
      exact ih known w hw
    · simp only [mergeSpec, if_neg hm] at hw
      rcases List.mem_cons.mp hw with rfl | hw'
      · exact hm
      · intro hk
        exact ih (known ++ [pyStrip v.url]) w hw' (List.mem_append.mpr (Or.inl hk))

theorem mergeSpec_map_nodup (known : List String) (vs : List Video) :
    ((mergeSpec known vs).1.map (fun v => pyStrip v.url)).Nodup := by
  induction vs generalizing known with
  | nil => simp [mergeSpec]
  | cons v vs ih =>
    by_cases hm : pyStrip v.url ∈ known
    · simp only [mergeSpec, if_pos hm]
      exact ih known
    · simp only [mergeSpec, if_neg hm, List.map_cons]
      refine List.nodup_cons.mpr ⟨?_, ih _⟩
      intro hmem
      rcases List.mem_map.mp hmem with ⟨w, hw, heq⟩
      exact mergeSpec_not_known (known ++ [pyStrip v.url]) vs w hw
        (List.mem_append.mpr (Or.inr (by simp [heq])))

theorem mergeSpec_sublist (known : List String) (vs : List Video) :
    List.Sublist (mergeSpec known vs).1 vs := by
  induction vs generalizing known with
  | nil => simp [mergeSpec]
  | cons v vs ih =>
    by_cases hm : pyStrip v.url ∈ known
    · simp only [mergeSpec, if_pos hm]
      exact (ih known).cons v
    · simp only [mergeSpec, if_neg hm]
      exact (ih _).cons₂ v

theorem mergeSpec_nil_known_ne (videos : List Video) (hne : videos ≠ []) :
    (mergeSpec [] videos).1 ≠ [] := by
  cases videos with
  | nil => exact absurd rfl hne
  | cons v vs => simp [mergeSpec]

theorem create_and_save_eq (videos : List Video) (store : Option (List Video))
    (h : ∀ v ∈ videos, pyStrip v.url ≠ "") (hne : videos ≠ []) :
    create_and_save videos store
      = ⟨true,
         some (store.getD []
           ++ (mergeSpec (extractExistingLinks (store.getD [])) videos).1),
         (mergeSpec (extractExistingLinks (store.getD [])) videos).1.length,
         (mergeSpec (extractExistingLinks (store.getD [])) videos).2⟩ := by
  unfold create_and_save
  rw [if_neg hne]
  simp only [filter_duplicate_videos_eq _ _ h]
  by_cases hw : (mergeSpec (extractExistingLinks (store.getD [])) videos).1 = []
  · rw [if_pos hw]
    cases store with
    | none =>
      exfalso
      exact mergeSpec_nil_known_ne videos hne (by simpa [extractExistingLinks] using hw)
    | some rows =>
      have hw' : (mergeSpec (extractExistingLinks rows) videos).1 = [] := by
        simpa using hw
      simp [hw']
  · rw [if_neg hw]

/-! ## Claim theorems: the accumulation store -/

/-- C1: for every session batch (of items with a usable, non-empty identity)
and every persisted store state, `create_and_save` appends exactly the items
whose identity (stripped URL) is not already known at merge time — as
computed by the spec-side `mergeSpec` — in discovery order (the appended list
is a sublist of the session list), reports `written` equal to the number of
appended items and `duplicates` equal to the number filtered out, and the two
counts partition the batch. -/
theorem c1_merge_appends_unknown (videos rows : List Video)
    (h : ∀ v ∈ videos, pyStrip v.url ≠ "") :
    (create_and_save videos (some rows)).store
        = some (rows ++ (mergeSpec (extractExistingLinks rows) videos).1)
    ∧ (create_and_save videos (some rows)).written
        = (mergeSpec (extractExistingLinks rows) videos).1.length
    ∧ (create_and_save videos (some rows)).duplicates
        = (mergeSpec (extractExistingLinks rows) videos).2
    ∧ List.Sublist (mergeSpec (extractExistingLinks rows) videos).1 videos
    ∧ (mergeSpec (extractExistingLinks rows) videos).1.length
        + (mergeSpec (extractExistingLinks rows) videos).2 = videos.length := by
  by_cases hne : videos = []
  · subst hne
    simp [create_and_save, mergeSpec]
  · rw [create_and_save_eq videos (some rows) h hne]
    exact ⟨by simp, by simp, rfl, mergeSpec_sublist _ _, mergeSpec_length _ _⟩

/-- Witness for C1 at the claim's own scenario: the store already holds
identity `A` and the session supplies `[A, B, C]`. -/
theorem c1_merge_witness :
    (∀ v ∈ [vA, vB, vC], pyStrip v.url ≠ "")
    ∧ ((create_and_save [vA, vB, vC] (some [vA])).store
        = some ([vA] ++ (mergeSpec (extractExistingLinks [vA]) [vA, vB, vC]).1)
      ∧ (create_and_save [vA, vB, vC] (some [vA])).written
        = (mergeSpec (extractExistingLinks [vA]) [vA, vB, vC]).1.length
      ∧ (create_and_save [vA, vB, vC] (some [vA])).duplicates
        = (mergeSpec (extractExistingLinks [vA]) [vA, vB, vC]).2
      ∧ List.Sublist (mergeSpec (extractExistingLinks [vA]) [vA, vB, vC]).1 [vA, vB, vC]
      ∧ (mergeSpec (extractExistingLinks [vA]) [vA, vB, vC]).1.length
        + (mergeSpec (extractExistingLinks [vA]) [vA, vB, vC]).2 = 3) :=
  ⟨by decide, c1_merge_appends_unknown [vA, vB, vC] [vA] (by decide)⟩

example :
    create_and_save [vA, vB, vC] (some [vA]) = ⟨true, some [vA, vB, vC], 2, 1⟩ := by
  decide

/-- C2: idempotence of accumulate.  Running `create_and_save` twice with the
same session batch (no underlying content change) yields `written = 0` on the
second call and leaves the persisted store — hence its identity set and row
count — exactly as the first call left it. -/
theorem c2_idempotent_accumulate (videos : List Video) (store : Option (List Video))
    (h : ∀ v ∈ videos, pyStrip v.url ≠ "") :
    (create_and_save videos (create_and_save videos store).store).written = 0
    ∧ (create_and_save videos (create_and_save videos store).store).store
        = (create_and_save videos store).store := by
  by_cases hne : videos = []
  · subst hne
    simp [create_and_save]
  · have h1 : (create_and_save videos store).store
        = some (store.getD []
          ++ (mergeSpec (extractExistingLinks (store.getD [])) videos).1) := by
      rw [create_and_save_eq videos store h hne]
    have hall : ∀ v ∈ videos,
        pyStrip v.url ∈ extractExistingLinks (store.getD []
          ++ (mergeSpec (extractExistingLinks (store.getD [])) videos).1) := by
      intro v hv
      rw [mem_extractExistingLinks]
      refine ⟨h v hv, ?_⟩
      rcases mergeSpec_mem_or (extractExistingLinks (store.getD [])) videos v hv with
        hk | hw
      · rcases (mem_extractExistingLinks _ _).mp hk with ⟨_, r, hr, heq⟩
        exact ⟨r, List.mem_append.mpr (Or.inl hr), heq⟩
      · rcases List.mem_map.mp hw with ⟨w, hwW, heq⟩
        exact ⟨w, List.mem_append.mpr (Or.inr hwW), heq⟩
    have hsec : create_and_save videos
        (some (store.getD []
          ++ (mergeSpec (extractExistingLinks (store.getD [])) videos).1))
        = ⟨true,
           some (store.getD []
             ++ (mergeSpec (extractExistingLinks (store.getD [])) videos).1),
           0, videos.length⟩ := by
      unfold create_and_save
      rw [if_neg hne]
      simp only [Option.getD_some]
      rw [filter_duplicate_videos_eq _ _ h, mergeSpec_of_all_known _ _ hall]
      simp
    rw [h1, hsec]
    exact ⟨rfl, rfl⟩

/-- Witness for C2: a fresh (empty) store and the batch `[A, B]`; the second
call writes nothing and leaves the store untouched. -/
theorem c2_idempotent_witness :
    (∀ v ∈ [vA, vB], pyStrip v.url ≠ "")
    ∧ ((create_and_save [vA, vB] (create_and_save [vA, vB] (some [])).store).written = 0
      ∧ (create_and_save [vA, vB] (create_and_save [vA, vB] (some [])).store).store
          = (create_and_save [vA, vB] (some [])).store) :=
  ⟨by decide, c2_idempotent_accumulate [vA, vB] (some []) (by decide)⟩

/-- C3: single-row-per-identity invariant.  If the persisted rows have
pairwise-distinct, non-empty identities (stripped URLs), then after any
`create_and_save` the store is the old rows — unchanged, so no existing row's
`added_date` timestamp is touched — followed by the newly appended rows, and
the identities are still pairwise distinct: re-observing a persisted identity
never creates a second row. -/
theorem c3_unique_row_invariant (videos rows : List Video)
    (h1 : ∀ v ∈ videos, pyStrip v.url ≠ "")
    (h2 : ∀ r ∈ rows, pyStrip r.url ≠ "")
    (h3 : (rows.map (fun r => pyStrip r.url)).Nodup) :
    (create_and_save videos (some rows)).store
        = some (rows ++ (mergeSpec (extractExistingLinks rows) videos).1)
    ∧ (((rows ++ (mergeSpec (extractExistingLinks rows) videos).1).map
        (fun r => pyStrip r.url)).Nodup) := by
  constructor
  · by_cases hne : videos = []
    · subst hne
      simp [create_and_save, mergeSpec]
    · rw [create_and_save_eq videos (some rows) h1 hne]
      simp
  · rw [List.map_append, List.nodup_append]
    refine ⟨h3, mergeSpec_map_nodup _ _, ?_⟩
    intro t ht ht'
    rcases List.mem_map.mp ht with ⟨r, hr, rfl⟩
    rcases List.mem_map.mp ht' with ⟨w, hwW, heq⟩
    have hmem : pyStrip r.url ∈ extractExistingLinks rows :=
      (mem_extractExistingLinks rows _).mpr ⟨h2 r hr, r, hr, rfl⟩
    exact mergeSpec_not_known _ _ w hwW (heq ▸ hmem)

/-- Witness for C3: store `[A]`, session `[A, B]`: the store becomes
`[A, B]`, `A`'s row untouched, identities still distinct. -/
theorem c3_unique_row_witness :
    ((∀ v ∈ [vA, vB], pyStrip v.url ≠ "")
      ∧ (∀ r ∈ [vA], pyStrip r.url ≠ "")
      ∧ (([vA].map (fun r => pyStrip r.url)).Nodup))
    ∧ ((create_and_save [vA, vB] (some [vA])).store
        = some ([vA] ++ (mergeSpec (extractExistingLinks [vA]) [vA, vB]).1)
      ∧ ((([vA] ++ (mergeSpec (extractExistingLinks [vA]) [vA, vB]).1).map
          (fun r => pyStrip r.url)).Nodup)) :=
  ⟨⟨by decide, by decide, by decide⟩,
    c3_unique_row_invariant [vA, vB] [vA] (by decide) (by decide) (by decide)⟩

/-- C10: calling the accumulate/save operation with an empty item list
returns failure (`False`) and performs no write: the store is returned
exactly as it was, with zero written and zero duplicate counts. -/
theorem c10_empty_save_returns_false (store : Option (List Video)) :
    create_and_save [] store = ⟨false, store, 0, 0⟩ := by
  simp [create_and_save]

/-! ## Lemmas about the scrolling loop -/

theorem maxReachedCheck_some_iff (m n : Nat) :
    maxReachedCheck (some m) n = true ↔ 0 < m ∧ m ≤ n := by
  simp [maxReachedCheck]

theorem scrollStep_exit_maxReached_iff (mv : Option Nat) (cur : List Video)
    (s : ScrollState) :
    (scrollStep mv cur s).2 = some ScrollExit.maxReached
      ↔ maxReachedCheck mv (s.all ++ filter_new_videos cur s.all).length = true := by
  simp only [scrollStep]
  by_cases hc :
      maxReachedCheck mv (s.all ++ filter_new_videos cur s.all).length = true
  · rw [if_pos hc]
    simpa using hc
  · rw [if_neg hc]
    constructor
    · intro h
      exfalso
      repeat' split at h
      all_goals simp_all
    · intro h
      exact absurd h hc

theorem scrollStep_max_exit (m : Nat) (cur : List Video) (s : ScrollState)
    (_hm : 0 < m)
    (h : (scrollStep (some m) cur s).2 = some ScrollExit.maxReached) :
    ((scrollStep (some m) cur s).1).all.length = m := by
  have hc := (scrollStep_exit_maxReached_iff (some m) cur s).mp h
  have hle := ((maxReachedCheck_some_iff m _).mp hc).2
  simp only [scrollStep]
  rw [if_pos hc]
  simp only [Option.getD_some, List.length_take]
  omega

theorem scrollStep_continue (mv : Option Nat) (cur : List Video) (s : ScrollState)
    (h : (scrollStep mv cur s).2 = none) :
    ((scrollStep mv cur s).1).all = s.all ++ filter_new_videos cur s.all
    ∧ maxReachedCheck mv (s.all ++ filter_new_videos cur s.all).length = false := by
  simp only [scrollStep] at h ⊢
  by_cases hc :
      maxReachedCheck mv (s.all ++ filter_new_videos cur s.all).length = true
  · rw [if_pos hc] at h
    simp at h
  · rw [if_neg hc]
    refine ⟨?_, by simpa using hc⟩
    repeat' split
    all_goals rfl

theorem scrollGo_succ_stop (snap : Nat → List Video) (mv : Option Nat) (fuel : Nat)
    (s s2 : ScrollState) (e : ScrollExit)
    (h : scrollStep mv (snap s.iters) s = (s2, some e)) :
    scrollGo snap mv (fuel + 1) s = (s2, e) := by
  rw [scrollGo, h]

theorem scrollGo_succ_continue (snap : Nat → List Video) (mv : Option Nat)
    (fuel : Nat) (s s2 : ScrollState)
    (h : scrollStep mv (snap s.iters) s = (s2, none)) :
    scrollGo snap mv (fuel + 1) s = scrollGo snap mv fuel s2 := by
  rw [scrollGo, h]

theorem scrollGo_max_exit (snap : Nat → List Video) (m : Nat) :
    ∀ (fuel : Nat) (s : ScrollState), 0 < m → s.all.length < m →
      (scrollGo snap (some m) fuel s).2 = ScrollExit.maxReached →
      ((scrollGo snap (some m) fuel s).1).all.length = m := by
  intro fuel
  induction fuel with
  | zero =>
    intro s _ _ h
    simp [scrollGo] at h
  | succ fuel ih =>
    intro s hm hs h
    rcases heq : scrollStep (some m) (snap s.iters) s with ⟨s2, e⟩
    cases e with
    | some ex =>
      rw [scrollGo_succ_stop snap (some m) fuel s s2 ex heq] at h ⊢
      have hex : ex = ScrollExit.maxReached := h
      subst hex
      have hlen := scrollStep_max_exit m (snap s.iters) s hm (by rw [heq])
      rw [heq] at hlen
      exact hlen
    | none =>
      rw [scrollGo_succ_continue snap (some m) fuel s s2 heq] at h ⊢
      have hcont := scrollStep_continue (some m) (snap s.iters) s (by rw [heq])
      rw [heq] at hcont
      have hlt : s2.all.length < m := by
        have h2 : ¬(0 < m ∧
            m ≤ (s.all ++ filter_new_videos (snap s.iters) s.all).length) := by
          rw [← maxReachedCheck_some_iff, hcont.2]
          simp
        have h1 : s2.all = s.all ++ filter_new_videos (snap s.iters) s.all := hcont.1
        rw [h1]
        omega
      exact ih s2 hm hlt h

/-! ## Claim theorems: the pagination controller -/

/-- C4: whenever the session's accumulated count reaches or exceeds a
configured positive maximum, the scrolling loop stops with the `maxReached`
exit (the spec's `SATISFIED`) and the accumulated list truncated to exactly
`max` items; and on the claim's concrete scenario — `max_count = 5`,
snapshots `[A,B]`, `[A,B,C,D]`, `[A,B,C,D,E,F]` — the loop returns exactly
`[A,B,C,D,E]` with the `maxReached`/`SATISFIED` exit after three
iterations. -/
theorem c4_satisfied_truncation :
    (∀ (snap : Nat → List Video) (m fuel : Nat) (s : ScrollState),
        0 < m → s.all.length < m →
        (scrollGo snap (some m) fuel s).2 = ScrollExit.maxReached →
        ((scrollGo snap (some m) fuel s).1).all.length = m)
    ∧ extract_videos_by_scrolling snapC4 (some 5) 50
        = (⟨[vA, vB, vC, vD, vE], 0, 4, 3⟩, ScrollExit.maxReached)
    ∧ specFinalState ScrollExit.maxReached = PagState.SATISFIED :=
  ⟨fun snap m fuel s => scrollGo_max_exit snap m fuel s, by decide, rfl⟩

/-- Witness for C4: instantiating the general truncation statement on the
claim's scenario, the final collection has exactly `5` items. -/
theorem c4_satisfied_witness :
    ((scrollGo snapC4 (some 5) 50 ⟨[], 0, 0, 0⟩).1).all.length = 5 :=
  c4_satisfied_truncation.1 snapC4 5 50 ⟨[], 0, 0, 0⟩ (by decide) (by decide)
    (by decide)

/-- C5 counterexample.  The claim says: for every content source that never
reveals new candidates (each snapshot yields only identities already seen
this session or already persisted), discover stops within `stall_limit`
reveals in state `STALLED`.  But the scrolling loop never consults the
persisted store: here the store already contains `A`
(`pyStrip vA.url ∈ extractExistingLinks [vA]`), the source forever shows
only `A`, yet with `max_count = 1` the loop counts `A` as fresh progress and
stops in `maxReached`/`SATISFIED`, not `STALLED`. -/
theorem c5_stall_counterexample :
    pyStrip vA.url ∈ extractExistingLinks [vA]
    ∧ extract_videos_by_scrolling snapConstA (some 1) 50
        = (⟨[vA], 0, 0, 1⟩, ScrollExit.maxReached)
    ∧ specFinalState ScrollExit.maxReached ≠ PagState.STALLED :=
  ⟨by decide, by decide, by decide⟩

/-- C5 amended: for a content source that reveals no candidates at all new to
the session's own collection (in a fresh session: snapshots yield nothing),
the scrolling loop stops after exactly one reveal action — within the
`stall_limit` of 3 — in the `endOfChannel` exit, which maps to the spec state
`STALLED`.  (Candidates that are merely known to the persisted store do count
as progress, see the counterexample.) -/
theorem c5_stall_termination_amended (snap : Nat → List Video)
    (maxVideos : Option Nat) (fuel : Nat)
    (hsnap : ∀ i, snap i = []) (hfuel : 1 ≤ fuel) :
    extract_videos_by_scrolling snap maxVideos fuel
      = (⟨[], 1, 0, 1⟩, ScrollExit.endOfChannel)
    ∧ specFinalState ScrollExit.endOfChannel = PagState.STALLED
    ∧ (1 : Nat) ≤ 3 := by
  obtain ⟨k, rfl⟩ : ∃ k, fuel = k + 1 := ⟨fuel - 1, by omega⟩
  refine ⟨?_, rfl, by omega⟩
  have hstep : scrollStep maxVideos (snap 0) ⟨[], 0, 0, 0⟩
      = (⟨[], 1, 0, 1⟩, some ScrollExit.endOfChannel) := by
    rw [hsnap 0]
    cases maxVideos with
    | none => decide
    | some m =>
      have hmr : maxReachedCheck (some m) 0 = false := by
        simp [maxReachedCheck]
        omega
      simp [scrollStep, filter_new_videos, hmr]
  unfold extract_videos_by_scrolling
  exact scrollGo_succ_stop snap maxVideos k ⟨[], 0, 0, 0⟩ ⟨[], 1, 0, 1⟩
    ScrollExit.endOfChannel hstep

/-- Witness for C5 (amended) on the totally silent content source with no
max target and the source's scroll budget of 50. -/
theorem c5_stall_witness :
    extract_videos_by_scrolling (fun _ => []) none 50
      = (⟨[], 1, 0, 1⟩, ScrollExit.endOfChannel)
    ∧ specFinalState ScrollExit.endOfChannel = PagState.STALLED
    ∧ (1 : Nat) ≤ 3 :=
  c5_stall_termination_amended (fun _ => []) none 50 (fun _ => rfl) (by omega)

/-- C6 counterexample.  The claim says an iteration whose candidates all
resolve to identities in the persisted `known_identities` (and none new to
the session) increments — does not reset — the stall counter.  In the code,
`_filter_new_videos` compares only against the session's own collection: here
the sole candidate `A` is already persisted (`pyStrip vA.url ∈
extractExistingLinks [vA]`), yet a fresh-session iteration appends it as
progress and leaves the stall counter at `0` instead of incrementing it
to `1`. -/
theorem c6_known_progress_counterexample :
    pyStrip vA.url ∈ extractExistingLinks [vA]
    ∧ scrollStep none [vA] ⟨[], 0, 0, 0⟩ = (⟨[vA], 0, 1, 1⟩, none)
    ∧ ((⟨[vA], 0, 1, 1⟩ : ScrollState).noNew ≠ 0 + 1) :=
  ⟨by decide, by decide, by decide⟩

/-- C6 amended: an iteration (with no max target) in which every candidate's
URL is already in the session's own accumulated collection counts as zero
progress — the collection is unchanged and the stall counter is incremented,
never reset.  Previously-persisted identities that the session has not yet
seen are *not* covered: the loop treats them as progress (see the
counterexample). -/
theorem c6_stall_increment_amended (cur : List Video) (s : ScrollState)
    (h : ∀ v ∈ cur, v.url ∈ s.all.map (fun w => w.url)) :
    ((scrollStep none cur s).1).all = s.all
    ∧ ((scrollStep none cur s).1).noNew = s.noNew + 1 := by
  have hnew : filter_new_videos cur s.all = [] := by
    unfold filter_new_videos
    rw [List.filter_eq_nil_iff]
    intro v hv
    simpa using h v hv
  have hres : scrollStep none cur s =
      (if 3 ≤ s.noNew + 1 then
        (⟨s.all, s.noNew + 1, s.last, s.iters + 1⟩, some ScrollExit.noNewStall)
      else if s.all.length = s.last then
        (⟨s.all, s.noNew + 1, s.last, s.iters + 1⟩, some ScrollExit.endOfChannel)
      else (⟨s.all, s.noNew + 1, s.all.length, s.iters + 1⟩, none)) := by
    simp [scrollStep, hnew, maxReachedCheck]
  rw [hres]
  constructor
  · split
    · rfl
    · split <;> rfl
  · split
    · rfl
    · split <;> rfl

/-- Witness for C6 (amended): a session that already collected `A` sees `A`
again — nothing is added and the stall counter increments from `0` to `1`. -/
theorem c6_stall_increment_witness :
    (∀ v ∈ [vA], v.url ∈ ([vA] : List Video).map (fun w => w.url))
    ∧ (((scrollStep none [vA] ⟨[vA], 0, 1, 1⟩).1).all = [vA]
      ∧ ((scrollStep none [vA] ⟨[vA], 0, 1, 1⟩).1).noNew = 0 + 1) :=
  ⟨by decide, c6_stall_increment_amended [vA] ⟨[vA], 0, 1, 1⟩ (by decide)⟩

/-! ## Claim theorems: error handling -/

/-- C7 counterexample.  The claim says a mid-session content-source error is
propagated to the caller and the partial results accumulated before the
failure are still returned.  The code's except-handler instead returns a
plain empty list: the caller receives `[]` (no error indication) and the
accumulated `[A]` is discarded. -/
theorem c7_error_swallowed_counterexample :
    search_tiktok (SessionOutcome.raised [vA] ("ContentSourceUnavailable")) = []
    ∧ ([vA] : List Video) ≠ [] :=
  ⟨rfl, by decide⟩

/-- C7 amended: when the content source raises mid-session, the search
wrapper catches the exception and returns the empty list — the error is not
propagated, and whatever had been accumulated before the failure is
discarded, for every partial result and error message. -/
theorem c7_error_swallowed_amended (acc : List Video) (msg : String) :
    search_tiktok (SessionOutcome.raised acc msg) = [] :=
  rfl

/-! ## Claim theorems: identity resolver and candidate extractor -/

/-- C8 counterexample.  The claim says a URL matched by no resolver rule
yields owner `"unknown"` and identity equal to the full URL string.  The code
instead leaves the identity at its initial sentinel `"unknown"`: on
`"https://example.com/xyz"` it returns `("unknown", "unknown")`, and
`"unknown"` is not the full URL string. -/
theorem c8_fallback_counterexample :
    extract_video_info ("https://example.com/xyz") = ("unknown", "unknown")
    ∧ ("unknown" : String) ≠ "https://example.com/xyz" :=
  ⟨by decide, by decide⟩

/-- C8 amended: for every candidate URL matched by no resolver rule (no
canonical-pattern match anywhere in the string, and neither short-link
substring), `extract_video_info` returns the sentinel pair
`("unknown", "unknown")` — the owner is `"unknown"` as claimed, but the
identity is the sentinel `"unknown"`, not the full URL string. -/
theorem c8_fallback_amended (url : String)
    (h1 : searchCanonical url.toList = none)
    (h2 : strContainsSub url ("vm.tiktok.com") = false)
    (h3 : strContainsSub url ("tiktok.com/t/") = false) :
    extract_video_info url = ("unknown", "unknown") := by
  unfold extract_video_info
  rw [h1, h2, h3]
  simp

/-- Witness for C8 (amended) at the unresolvable URL
`"https://example.com/xyz"`. -/
theorem c8_fallback_witness :
    (searchCanonical ("https://example.com/xyz").toList = none
      ∧ strContainsSub ("https://example.com/xyz") ("vm.tiktok.com") = false
      ∧ strContainsSub ("https://example.com/xyz") ("tiktok.com/t/") = false)
    ∧ extract_video_info ("https://example.com/xyz") = ("unknown", "unknown") :=
  ⟨⟨by decide, by decide, by decide⟩,
    c8_fallback_amended ("https://example.com/xyz") (by decide) (by decide)
      (by decide)⟩

/-! ## Lemmas about the candidate extractor's deduplication -/

theorem foldl_linkDedupStep_eq (l : List String) :
    ∀ u : List String,
      l.foldl linkDedupStep (u, u) = (u ++ dedupAux u l, u ++ dedupAux u l) := by
  induction l with
  | nil =>
    intro u
    simp [dedupAux]
  | cons x xs ih =>
    intro u
    by_cases hx : x ∈ u
    · have hstep : linkDedupStep (u, u) x = (u, u) := by
        simp [linkDedupStep, hx]
      rw [List.foldl_cons, hstep, ih u, dedupAux, if_pos hx]
    · have hstep : linkDedupStep (u, u) x = (u ++ [x], u ++ [x]) := by
        simp [linkDedupStep, hx]
      rw [List.foldl_cons, hstep, ih (u ++ [x]), dedupAux, if_neg hx]
      simp

theorem mem_dedupAux (l : List String) :
    ∀ (seen : List String) (x : String),
      x ∈ dedupAux seen l ↔ x ∈ l ∧ x ∉ seen := by
  induction l with
  | nil =>
    intro seen x
    simp [dedupAux]
  | cons y ys ih =>
    intro seen x
    by_cases hy : y ∈ seen
    · rw [dedupAux, if_pos hy, ih]
      simp only [List.mem_cons]
      constructor
      · rintro ⟨h1, h2⟩
        exact ⟨Or.inr h1, h2⟩
      · rintro ⟨h1 | h1, h2⟩
        · exact absurd (h1 ▸ hy) h2
        · exact ⟨h1, h2⟩
    · rw [dedupAux, if_neg hy]
      simp only [List.mem_cons, ih]
      constructor
      · rintro (rfl | ⟨h1, h2⟩)
        · exact ⟨Or.inl rfl, hy⟩
        · exact ⟨Or.inr h1, fun hs => h2 (List.mem_append.mpr (Or.inl hs))⟩
      · rintro ⟨(rfl | h1), h2⟩
        · exact Or.inl rfl
        · by_cases hxy : x = y
          · exact Or.inl hxy
          · refine Or.inr ⟨h1, ?_⟩
            intro hmem
            rcases List.mem_append.mp hmem with hs | hx
            · exact h2 hs
            · exact hxy (by simpa using hx)

theorem nodup_dedupAux (l : List String) :
    ∀ seen : List String, (dedupAux seen l).Nodup := by
  induction l with
  | nil =>
    intro seen
    simp [dedupAux]
  | cons y ys ih =>
    intro seen
    by_cases hy : y ∈ seen
    · rw [dedupAux, if_pos hy]
      exact ih seen
    · rw [dedupAux, if_neg hy]
      refine List.nodup_cons.mpr ⟨?_, ih _⟩
      intro hmem
      exact ((mem_dedupAux ys (seen ++ [y]) y).mp hmem).2
        (List.mem_append.mpr (Or.inr (by simp)))

theorem pairwise_indexOf_dedupAux (l : List String) :
    ∀ seen : List String,
      (dedupAux seen l).Pairwise (fun a b => l.indexOf a < l.indexOf b) := by
  induction l with
  | nil =>
    intro seen
    simp [dedupAux]
  | cons y ys ih =>
    intro seen
    by_cases hy : y ∈ seen
    · rw [dedupAux, if_pos hy]
      refine List.Pairwise.imp_of_mem ?_ (ih seen)
      intro a b ha hb hab
      have ha' := (mem_dedupAux ys seen a).mp ha
      have hb' := (mem_dedupAux ys seen b).mp hb
      have hay : y ≠ a := fun e => ha'.2 (e ▸ hy)
      have hby : y ≠ b := fun e => hb'.2 (e ▸ hy)
      rw [List.indexOf_cons_ne _ hay, List.indexOf_cons_ne _ hby]
      exact Nat.succ_lt_succ hab
    · rw [dedupAux, if_neg hy]
      refine List.pairwise_cons.mpr ⟨?_, ?_⟩
      · intro b hb
        have hb' := (mem_dedupAux ys (seen ++ [y]) b).mp hb
        have hby : y ≠ b := fun e =>
          hb'.2 (List.mem_append.mpr (Or.inr (by simp [e])))
        rw [List.indexOf_cons_self, List.indexOf_cons_ne _ hby]
        exact Nat.succ_pos _
      · refine List.Pairwise.imp_of_mem ?_ (ih (seen ++ [y]))
        intro a b ha hb hab
        have ha' := (mem_dedupAux ys (seen ++ [y]) a).mp ha
        have hb' := (mem_dedupAux ys (seen ++ [y]) b).mp hb
        have hay : y ≠ a := fun e =>
          ha'.2 (List.mem_append.mpr (Or.inr (by simp [e])))
        have hby : y ≠ b := fun e =>
          hb'.2 (List.mem_append.mpr (Or.inr (by simp [e])))
        rw [List.indexOf_cons_ne _ hay, List.indexOf_cons_ne _ hby]
        exact Nat.succ_lt_succ hab

theorem find_tiktok_links_eq_dedupAux (findall : String → String → List String)
    (page : String) :
    find_tiktok_links findall page = dedupAux [] (foundLinks findall page) := by
  unfold find_tiktok_links
  rw [foldl_linkDedupStep_eq (foundLinks findall page) []]
  simp

/-- C9: for every matcher and every page-content string, the candidate
extractor returns a list with no repeated URL, containing exactly the URLs of
the rule-ordered concatenation of all pattern matches (`foundLinks`), ordered
by each URL's first occurrence in that concatenation. -/
theorem c9_extraction_dedup (findall : String → String → List String)
    (page : String) :
    (find_tiktok_links findall page).Nodup
    ∧ (∀ x, x ∈ find_tiktok_links findall page ↔ x ∈ foundLinks findall page)
    ∧ (find_tiktok_links findall page).Pairwise
        (fun a b => (foundLinks findall page).indexOf a
          < (foundLinks findall page).indexOf b) := by
  rw [find_tiktok_links_eq_dedupAux]
  refine ⟨nodup_dedupAux _ _, ?_, pairwise_indexOf_dedupAux _ _⟩
  intro x
  rw [mem_dedupAux]
  simp
